import Mathlib

/-!
Verification of the nanoFiler directory-scan core (pynanofiler/main.py).

The embedding models the four core components from the source:
  * the filesystem prober `scan_dir` together with `get_mimetype`,
  * the directory cache (a path-keyed mapping),
  * the async scan scheduler `async_get_dir` / `scan_and_callback` /
    `scan_and_update_cache`,
  * the live-refresh timer `schedule_live_refresh` / `perform_live_refresh` /
    `on_focus_in` / `on_focus_out`.

The filesystem is an explicit oracle (`FS`): `os.stat` and `os.scandir` either
return data or fail with an `OSErr`, matching the single `except Exception`
boundary in `scan_dir`.
-/

/-- A filesystem error as raised by `os.stat` / `os.scandir` (CPython's
`OSError` carries an errno and a strerror). -/
structure OSErr where
  errno : Nat
  strerror : String
deriving DecidableEq

/-- CPython renders an `OSError` as `[Errno N] strerror` (the optional
filename suffix is elided in this model).  The rendering can never be the
empty string. -/
def OSErr.toString (e : OSErr) : String :=
  "[Errno " ++ ToString.toString e.errno ++ "] " ++ e.strerror

/-- The fields of `os.stat_result` read by `scan_dir`.  Timestamps are
abstract numbers. -/
structure Stat where
  st_birthtime : Nat
  st_mtime : Nat
  st_size : Nat
deriving DecidableEq

/-- One `os.DirEntry` yielded by `os.scandir`: a name, the `is_dir` /
`is_file` status bits, and the data of `entry.stat()`. -/
structure DirEntry where
  name : String
  is_dir : Bool
  is_file : Bool
  stat : Stat
deriving DecidableEq

/-- The filesystem oracle: results of `os.stat` and `os.scandir` per path. -/
structure FS where
  stat : String → Except OSErr Stat
  scandir : String → Except OSErr (List DirEntry)

/-- Abstract stand-in for `time.ctime`: renders a numeric timestamp as a
string.  No claim depends on the concrete text format. -/
def ctime (t : Nat) : String := ToString.toString t

/-- `FileMetadata` TypedDict from the source. -/
structure FileMetadata where
  created : String
  modified : String
deriving DecidableEq

/-- A value stored in a directory-metadata dict (`int` or `str`). -/
inductive MetaVal where
  | natV : Nat → MetaVal
  | strV : String → MetaVal
deriving DecidableEq

/-- The `File` class from the source. -/
structure File where
  path : String
  metadata : FileMetadata
  size : Nat
  mimetype : String
  content : String
deriving DecidableEq

/-- The `Dir` class from the source.  `metadata` is the Python dict that the
code fills with either the `DirMetadata` keys or the `DirErrorMetadata` key;
it is modelled as a key-value list so that variant exclusivity is a real
statement about the keys.  `subdirs` and `files` keep their `dict[int, _]`
shape as key-value lists. -/
structure Dir where
  path : String
  metadata : List (String × MetaVal)
  subdirs : List (Nat × String)
  files : List (Nat × File)
deriving DecidableEq

/-- Index of the last occurrence of `c` in `p`, or `-1` if absent
(the semantics of Python's `str.rfind`). -/
def rfind (p : List Char) (c : Char) : Int :=
  match p with
  | [] => -1
  | a :: rest =>
    let r := rfind rest c
    if 0 ≤ r then r + 1
    else if a = c then 0 else -1

/-- `os.path.splitext` as implemented by `genericpath._splitext` with the
ntpath separators `\` and `/`: the extension starts at the last dot past the
last separator, provided some earlier character of the base name is not a
dot (so names of only leading dots have no extension). -/
def splitext (p : List Char) : List Char × List Char :=
  let sepIndex := max (rfind p '\\') (rfind p '/')
  let dotIndex := rfind p '.'
  if sepIndex < dotIndex then
    if (List.range' (sepIndex + 1).toNat (dotIndex - sepIndex - 1).toNat).any
        (fun i => p.getD i '.' != '.') then
      (p.take dotIndex.toNat, p.drop dotIndex.toNat)
    else (p, [])
  else (p, [])

/-- `text_extensions` set from `get_mimetype`. -/
def text_extensions : List String :=
  [".txt", ".md", ".py", ".log", ".json", ".xml", ".csv", ".ini", ".css",
   ".html", ".js", ".yaml", ".yml", ".bat", ".cmd", ".sh", ".ps1", ".rtf",
   ".git"]

/-- `image_extensions` set from `get_mimetype`. -/
def image_extensions : List String :=
  [".png", ".jpg", ".jpeg", ".bmp", ".gif", ".tiff", ".svg"]

/-- `os.path.splitext(file_name)[1].lower()` — the case-folded extension.
`str.lower` is modelled on the basic-latin letters (every extension in the
two static sets is pure ASCII). -/
def extLower (file_name : String) : String :=
  ⟨((splitext file_name.data).2).map Char.toLower⟩

/-- `NanoFilerApp.get_mimetype`: two-tier extension lookup. -/
def get_mimetype (file_name : String) : String :=
  let extension := extLower file_name
  if extension ∈ text_extensions then "text/plain"
  else if extension ∈ image_extensions then "image"
  else "unknown"

/-- `os.path.join(path, entry.name)` specialised to joining a directory path
with a plain entry name; ntpath's separator normalisation is abstracted to
appending one backslash.  No claim depends on the joined text. -/
def joinPath (p name : String) : String := p ++ "\\" ++ name

/-- The `File(...)` constructed for one regular-file entry in `scan_dir`. -/
def mkFile (path : String) (entry : DirEntry) : File :=
  { path := joinPath path entry.name
    metadata := { created := ctime entry.stat.st_birthtime
                  modified := ctime entry.stat.st_mtime }
    size := entry.stat.st_size
    mimetype := get_mimetype entry.name
    content := "" }

/-- The `for entry in it:` loop of `scan_dir`: each entry is recorded as a
subdirectory (key `subdir_idx`), a file (key `file_idx`), or skipped, the
two index counters advancing independently. -/
def scanEntries (path : String) :
    List DirEntry → Nat → Nat → List (Nat × String) × List (Nat × File)
  | [], _, _ => ([], [])
  | e :: rest, subdir_idx, file_idx =>
    if e.is_dir then
      let r := scanEntries path rest (subdir_idx + 1) file_idx
      ((subdir_idx, e.name) :: r.1, r.2)
    else if e.is_file then
      let r := scanEntries path rest subdir_idx (file_idx + 1)
      (r.1, (file_idx, mkFile path e) :: r.2)
    else
      scanEntries path rest subdir_idx file_idx

/-- The `Dir` built by the `except` branch of `scan_dir`: empty lists and the
error-variant metadata. -/
def errorDir (path : String) (e : OSErr) : Dir :=
  { path := path
    metadata := [("error", MetaVal.strV (OSErr.toString e))]
    subdirs := []
    files := [] }

/-- `NanoFilerApp.scan_dir`: stat the directory, enumerate children, build
success metadata; any failure of the top-level `stat`/`scandir` yields the
error-variant `Dir` (the `except` branch also resets `subdirs`/`files` to
empty, which the error shape here reflects). -/
def scan_dir (fs : FS) (path : String) : Dir :=
  match fs.stat path with
  | .error e => errorDir path e
  | .ok dir_stat =>
    match fs.scandir path with
    | .error e => errorDir path e
    | .ok entries =>
      let r := scanEntries path entries 0 0
      { path := path
        metadata := [("count_subdirs", MetaVal.natV r.1.length),
                     ("count_files", MetaVal.natV r.2.length),
                     ("created", MetaVal.strV (ctime dir_stat.st_birthtime)),
                     ("modified", MetaVal.strV (ctime dir_stat.st_mtime))]
        subdirs := r.1
        files := r.2 }

/-- Which top-level failure, if any, `scan_dir` hits on this filesystem:
first `os.stat`, then `os.scandir`. -/
def scanErr (fs : FS) (path : String) : Option OSErr :=
  match fs.stat path with
  | .error e => some e
  | .ok _ =>
    match fs.scandir path with
    | .error e => some e
    | .ok _ => none

/-- `path in self.cache` / `self.cache[path]` lookup. -/
def cacheLookup (cache : List (String × Dir)) (path : String) : Option Dir :=
  match cache.find? (fun kv => kv.1 == path) with
  | some kv => some kv.2
  | none => none

/-- `self.cache[path] = dir_obj`: whole-value replace of the entry for
`path`, keeping at most one entry per key. -/
def cachePut (cache : List (String × Dir)) (path : String) (d : Dir) :
    List (String × Dir) :=
  if cache.any (fun kv => kv.1 == path) then
    cache.map (fun kv => if kv.1 == path then (path, d) else kv)
  else cache ++ [(path, d)]

/-- A background thread spawned by `async_get_dir`: either
`scan_and_callback path cb` or `scan_and_update_cache path`.  Callbacks are
identified by numeric tokens. -/
inductive ScanTask where
  | scanAndCallback : String → Nat → ScanTask
  | scanAndUpdateCache : String → ScanTask
deriving DecidableEq

/-- Scheduler state: the cache, the set of spawned (not yet run) background
threads, the `self.after(0, ...)` queue of completed results awaiting the UI
thread, and the log of callback invocations that have happened. -/
structure SchedState where
  cache : List (String × Dir)
  tasks : List ScanTask
  uiQueue : List (Nat × Dir)
  delivered : List (Nat × Dir)
deriving DecidableEq

/-- `NanoFilerApp.async_get_dir`: on a cache hit, invoke the callback
immediately with the cached snapshot and spawn a `scan_and_update_cache`
thread; on a miss, spawn a `scan_and_callback` thread. -/
def async_get_dir (σ : SchedState) (path : String) (cb : Nat) : SchedState :=
  match cacheLookup σ.cache path with
  | some d =>
    { σ with delivered := σ.delivered ++ [(cb, d)]
             tasks := σ.tasks ++ [ScanTask.scanAndUpdateCache path] }
  | none =>
    { σ with tasks := σ.tasks ++ [ScanTask.scanAndCallback path cb] }

/-- Run one spawned background thread to completion.
`scan_and_callback` scans, writes the cache, then queues the callback via
`self.after(0, ...)`; `scan_and_update_cache` scans and writes the cache
only. -/
def runScanTask (fs : FS) (σ : SchedState) (t : ScanTask) : SchedState :=
  match t with
  | .scanAndCallback path cb =>
    let dir_obj := scan_dir fs path
    { σ with cache := cachePut σ.cache path dir_obj
             uiQueue := σ.uiQueue ++ [(cb, dir_obj)] }
  | .scanAndUpdateCache path =>
    { σ with cache := cachePut σ.cache path (scan_dir fs path) }

/-- The UI thread draining its `after(0, ...)` queue: every queued callback
is invoked, in order. -/
def drainUI (σ : SchedState) : SchedState :=
  { σ with delivered := σ.delivered ++ σ.uiQueue, uiQueue := [] }

/-- How many invocations of callback `cb` have happened or are queued. -/
def deliveriesFor (cb : Nat) (σ : SchedState) : Nat :=
  (σ.delivered.filter (fun x => x.1 == cb)).length +
  (σ.uiQueue.filter (fun x => x.1 == cb)).length

/-- The Tcl `after` timer subsystem restricted to the refresh timer: a fresh
handle counter and the pending (armed, not yet fired) timers with their
delays. -/
structure TimerSys where
  nextId : Nat
  pending : List (Nat × Nat)
deriving DecidableEq

/-- `self.after(delay, ...)`: arm a fresh timer, returning its handle. -/
def afterCall (t : TimerSys) (delay : Nat) : TimerSys × Nat :=
  ({ nextId := t.nextId + 1, pending := t.pending ++ [(t.nextId, delay)] },
   t.nextId)

/-- `self.after_cancel(id)`: drop the pending timer with this handle (a
no-op when the handle is not pending, e.g. already fired). -/
def afterCancel (t : TimerSys) (id : Nat) : TimerSys :=
  { t with pending := t.pending.filter (fun x => x.1 != id) }

/-- The refresh-relevant state of `NanoFilerApp`: the timer subsystem, the
`refresh_timer_id` / `is_focused` attributes, the two interval constants set
in `__init__`, and whether a directory is currently displayed. -/
structure AppState where
  timers : TimerSys
  refresh_timer_id : Option Nat
  is_focused : Bool
  focused_refresh_ms : Nat
  unfocused_refresh_ms : Nat
  current_dir_open : Bool
deriving DecidableEq

/-- `NanoFilerApp.schedule_live_refresh`: cancel the tracked handle if set,
pick the delay from the focus flag, arm a new timer and track its handle. -/
def schedule_live_refresh (s : AppState) : AppState :=
  let t :=
    match s.refresh_timer_id with
    | some id => afterCancel s.timers id
    | none => s.timers
  let delay := if s.is_focused then s.focused_refresh_ms
               else s.unfocused_refresh_ms
  let r := afterCall t delay
  { s with timers := r.1, refresh_timer_id := some r.2 }

/-- Attribute values established by `__init__` before its final
`schedule_live_refresh()` call. -/
def initialAppState : AppState :=
  { timers := { nextId := 0, pending := [] }
    refresh_timer_id := none
    is_focused := true
    focused_refresh_ms := 10000
    unfocused_refresh_ms := 90000
    current_dir_open := false }

/-- State at the end of `__init__` (which calls `schedule_live_refresh`). -/
def initApp : AppState := schedule_live_refresh initialAppState

/-- Events touching the refresh state: focus gained (`on_focus_in`), focus
lost (`on_focus_out`), the armed timer firing (`perform_live_refresh`), and
a directory being opened/changed (`update_ui_from_dir` setting
`current_dir`, which does not touch the timer). -/
inductive TEvent where
  | focusIn | focusOut | fire | dirOpened
deriving DecidableEq

/-- One event step.  A fire consumes the pending handle (the Tcl loop
removes a timer when it fires) and then `perform_live_refresh` reschedules;
the scan it may also start is modelled separately in `SchedState`. -/
def tstep (s : AppState) : TEvent → AppState
  | .focusIn => schedule_live_refresh { s with is_focused := true }
  | .focusOut => schedule_live_refresh { s with is_focused := false }
  | .fire =>
    match s.refresh_timer_id with
    | some id =>
      if s.timers.pending.any (fun x => x.1 == id) then
        schedule_live_refresh { s with timers := afterCancel s.timers id }
      else s
    | none => s
  | .dirOpened => { s with current_dir_open := true }

/-- Run a sequence of refresh events from a state. -/
def runEvents (s : AppState) (evs : List TEvent) : AppState :=
  evs.foldl tstep s

/-- Demo stat result for the directory `/a`. -/
def statA : Stat := { st_birthtime := 100, st_mtime := 200, st_size := 0 }

/-- Demo subdirectory entry `b`. -/
def entryB : DirEntry :=
  { name := "b", is_dir := true, is_file := false
    stat := { st_birthtime := 0, st_mtime := 0, st_size := 0 } }

/-- Demo file entry `c.txt` of 10 bytes. -/
def entryC : DirEntry :=
  { name := "c.txt", is_dir := false, is_file := true
    stat := { st_birthtime := 10, st_mtime := 20, st_size := 10 } }

/-- Demo symlink-like entry: neither directory nor regular file. -/
def entryS : DirEntry :=
  { name := "s", is_dir := false, is_file := false
    stat := { st_birthtime := 0, st_mtime := 0, st_size := 0 } }

/-- The error `os.stat` raises on a missing path. -/
def enoent : OSErr := { errno := 2, strerror := "No such file or directory" }

/-- Demo filesystem: `/a` holds `b`, `c.txt` and the skipped `s`; every
other path fails to stat. -/
def fsDemo : FS :=
  { stat := fun p => if p = "/a" then Except.ok statA else Except.error enoent
    scandir := fun p =>
      if p = "/a" then Except.ok [entryB, entryC, entryS]
      else Except.error enoent }

/-- Demo snapshot of `/a`. -/
def dirA : Dir := scan_dir fsDemo "/a"

/-- Two characters are case-equivalent when they agree after lower-casing:
the relation between a name and the same name with letter case changed. -/
def caseEqv (a b : Char) : Prop := Char.toLower a = Char.toLower b

/-- Refresh-timer invariant: at most one pending handle, every pending
handle is the tracked `refresh_timer_id`, the two interval constants hold
their `__init__` values, and every pending delay follows the focus policy. -/
def timerInv (s : AppState) : Prop :=
  s.timers.pending.length ≤ 1 ∧
  (∀ x ∈ s.timers.pending, s.refresh_timer_id = some x.1) ∧
  s.focused_refresh_ms = 10000 ∧
  s.unfocused_refresh_ms = 90000 ∧
  (∀ x ∈ s.timers.pending, x.2 = if s.is_focused then 10000 else 90000)

theorem toLower_fix {b d : Char} (hd : ¬ (97 ≤ d.toNat ∧ d.toNat ≤ 122))
    (h : Char.toLower b = d) : b = d := by
  simp only [Char.toLower] at h
  split at h
  · exfalso
    rename_i hb
    have hv : (b.toNat + 32).isValidChar := by
      left
      omega
    have : (Char.ofNat (b.toNat + 32)).toNat = b.toNat + 32 := by
      simp only [Char.toNat] at hv ⊢
      simp only [Char.ofNat]
      rw [dif_pos hv]
      rfl
    rw [h] at this
    omega
  · exact h

theorem caseEqv_eq_iff {a b : Char} (h : caseEqv a b) {d : Char}
    (hd1 : Char.toLower d = d) (hd2 : ¬ (97 ≤ d.toNat ∧ d.toNat ≤ 122)) :
    a = d ↔ b = d := by
  constructor
  · rintro rfl
    exact toLower_fix hd2 (by rw [← h]; exact hd1)
  · rintro rfl
    exact toLower_fix hd2 (by rw [h]; exact hd1)

theorem rfind_caseEqv {l₁ l₂ : List Char} (h : List.Forall₂ caseEqv l₁ l₂)
    {d : Char} (hd1 : Char.toLower d = d)
    (hd2 : ¬ (97 ≤ d.toNat ∧ d.toNat ≤ 122)) :
    rfind l₁ d = rfind l₂ d := by
  induction h with
  | nil => rfl
  | @cons a b tl₁ tl₂ hab _ ih =>
    simp only [rfind]
    rw [ih]
    split
    · rfl
    · by_cases had : a = d
      · have hbd : b = d := (caseEqv_eq_iff hab hd1 hd2).mp had
        simp [had, hbd]
      · have hbd : ¬ b = d := fun hb => had ((caseEqv_eq_iff hab hd1 hd2).mpr hb)
        simp [had, hbd]

theorem getD_caseEqv {l₁ l₂ : List Char} (h : List.Forall₂ caseEqv l₁ l₂)
    (i : Nat) : (l₁.getD i '.' = '.') ↔ (l₂.getD i '.' = '.') := by
  induction h generalizing i with
  | nil => exact Iff.rfl
  | @cons a b tl₁ tl₂ hab _ ih =>
    cases i with
    | zero => simpa using caseEqv_eq_iff hab (by decide) (by decide)
    | succ n => simpa using ih n

theorem map_toLower_caseEqv {l₁ l₂ : List Char}
    (h : List.Forall₂ caseEqv l₁ l₂) :
    l₁.map Char.toLower = l₂.map Char.toLower := by
  induction h with
  | nil => rfl
  | @cons a b tl₁ tl₂ hab _ ih =>
    simp only [List.map_cons, ih]
    simp only [caseEqv] at hab
    rw [hab]

theorem splitext_snd_caseEqv {l₁ l₂ : List Char}
    (h : List.Forall₂ caseEqv l₁ l₂) :
    List.Forall₂ caseEqv (splitext l₁).2 (splitext l₂).2 := by
  have hsep : max (rfind l₁ '\\') (rfind l₁ '/') =
      max (rfind l₂ '\\') (rfind l₂ '/') := by
    rw [rfind_caseEqv h (by decide) (by decide),
        rfind_caseEqv h (d := '/') (by decide) (by decide)]
  have hdot : rfind l₁ '.' = rfind l₂ '.' := by
    rw [rfind_caseEqv h (by decide) (by decide)]
  have hany : (fun i => l₁.getD i '.' != '.') =
      (fun i => l₂.getD i '.' != '.') := by
    funext i
    have hiff := getD_caseEqv h i
    by_cases h1 : l₁.getD i '.' = '.'
    · have h2 := hiff.mp h1
      simp only [List.getD, List.get?_eq_getElem?] at h1 h2
      simp [h1, h2]
    · have h2 : ¬ l₂.getD i '.' = '.' := fun hx => h1 (hiff.mpr hx)
      simp only [List.getD, List.get?_eq_getElem?] at h1 h2 ⊢
      rw [bne_iff_ne.mpr h1, bne_iff_ne.mpr h2]
  simp only [splitext]
  rw [hsep, hdot, hany]
  split
  · split
    · exact List.forall₂_drop _ h
    · exact List.Forall₂.nil
  · exact List.Forall₂.nil

theorem extLower_caseEqv {n₁ n₂ : String}
    (h : List.Forall₂ caseEqv n₁.data n₂.data) :
    extLower n₁ = extLower n₂ := by
  unfold extLower
  congr 1
  exact map_toLower_caseEqv (splitext_snd_caseEqv h)

theorem scanEntries_subdir_names (p : String) (es : List DirEntry)
    (si fi : Nat) :
    (scanEntries p es si fi).1.map Prod.snd =
      (es.filter (fun e => e.is_dir)).map DirEntry.name := by
  induction es generalizing si fi with
  | nil => rfl
  | cons e rest ih =>
    by_cases hd : e.is_dir
    · simp [scanEntries, hd, List.filter_cons, ih]
    · by_cases hf : e.is_file
      · simp [scanEntries, hd, hf, List.filter_cons, ih]
      · simp [scanEntries, hd, hf, List.filter_cons, ih]

theorem scanEntries_subdir_keys (p : String) (es : List DirEntry)
    (si fi : Nat) :
    (scanEntries p es si fi).1.map Prod.fst =
      List.range' si ((es.filter (fun e => e.is_dir)).length) := by
  induction es generalizing si fi with
  | nil => rfl
  | cons e rest ih =>
    by_cases hd : e.is_dir
    · simp [scanEntries, hd, List.filter_cons, ih, List.range'_succ]
    · by_cases hf : e.is_file
      · simp [scanEntries, hd, hf, List.filter_cons, ih]
      · simp [scanEntries, hd, hf, List.filter_cons, ih]

theorem scanEntries_file_keys (p : String) (es : List DirEntry)
    (si fi : Nat) :
    (scanEntries p es si fi).2.map Prod.fst =
      List.range' fi ((es.filter (fun e => !e.is_dir && e.is_file)).length) := by
  induction es generalizing si fi with
  | nil => rfl
  | cons e rest ih =>
    by_cases hd : e.is_dir
    · simp [scanEntries, hd, List.filter_cons, ih]
    · by_cases hf : e.is_file
      · simp [scanEntries, hd, hf, List.filter_cons, ih, List.range'_succ]
      · simp [scanEntries, hd, hf, List.filter_cons, ih]

theorem scanEntries_file_vals (p : String) (es : List DirEntry)
    (si fi : Nat) :
    (scanEntries p es si fi).2.map Prod.snd =
      (es.filter (fun e => !e.is_dir && e.is_file)).map (mkFile p) := by
  induction es generalizing si fi with
  | nil => rfl
  | cons e rest ih =>
    by_cases hd : e.is_dir
    · simp [scanEntries, hd, List.filter_cons, ih]
    · by_cases hf : e.is_file
      · simp [scanEntries, hd, hf, List.filter_cons, ih]
      · simp [scanEntries, hd, hf, List.filter_cons, ih]

theorem OSErr_toString_ne_empty (e : OSErr) : OSErr.toString e ≠ "" := by
  intro hc
  have hlen : (OSErr.toString e).length = 0 := by rw [hc]; rfl
  unfold OSErr.toString at hlen
  rw [String.length_append, String.length_append, String.length_append] at hlen
  have h7 : ("[Errno " : String).length = 7 := rfl
  omega

theorem find?_replace (c : List (String × Dir)) (p : String) (d : Dir)
    (h : c.any (fun kv => kv.1 == p)) :
    (c.map (fun kv => if kv.1 == p then (p, d) else kv)).find?
      (fun kv => kv.1 == p) = some (p, d) := by
  induction c with
  | nil => simp at h
  | cons kv rest ih =>
    by_cases hk : kv.1 = p
    · simp [List.find?, hk]
    · have hkb : (kv.1 == p) = false := beq_eq_false_iff_ne.mpr hk
      have h2 : rest.any (fun kv => kv.1 == p) := by
        simp only [List.any_cons, hkb, Bool.false_or] at h
        exact h
      simp only [List.map_cons, hkb, Bool.false_eq_true, if_false,
        List.find?_cons, hkb]
      exact ih h2

theorem cacheLookup_cachePut (c : List (String × Dir)) (p : String)
    (d : Dir) : cacheLookup (cachePut c p d) p = some d := by
  unfold cacheLookup cachePut
  by_cases hmem : c.any (fun kv => kv.1 == p)
  · rw [if_pos hmem, find?_replace c p d hmem]
  · rw [if_neg hmem]
    have hnone : c.find? (fun kv => kv.1 == p) = none := by
      rw [List.find?_eq_none]
      intro x hx hpx
      exact hmem (List.any_of_mem hx hpx)
    rw [List.find?_append, hnone]
    simp [List.find?]

theorem timerInv_schedule {s : AppState}
    (hid : ∀ x ∈ s.timers.pending, s.refresh_timer_id = some x.1)
    (hf : s.focused_refresh_ms = 10000)
    (hu : s.unfocused_refresh_ms = 90000) :
    timerInv (schedule_live_refresh s) := by
  have hclear : (match s.refresh_timer_id with
      | some id => afterCancel s.timers id
      | none => s.timers).pending = [] := by
    cases hrid : s.refresh_timer_id with
    | none =>
      cases hp : s.timers.pending with
      | nil => simp [hp]
      | cons x rest =>
        have := hid x (by rw [hp]; exact List.mem_cons_self x rest)
        rw [hrid] at this
        exact absurd this (by simp)
    | some id =>
      simp only [afterCancel]
      rw [List.filter_eq_nil_iff]
      intro x hx
      have := hid x hx
      rw [hrid] at this
      have hxid : x.1 = id := by
        injection this with h0
        exact h0.symm
      simp [hxid]
  have hnid : (match s.refresh_timer_id with
      | some id => afterCancel s.timers id
      | none => s.timers).nextId = s.timers.nextId := by
    cases s.refresh_timer_id <;> rfl
  refine ⟨?_, ?_, hf, hu, ?_⟩ <;>
    simp only [schedule_live_refresh, afterCall, hclear, hnid]
  · simp
  · intro x hx
    simp only [List.nil_append, List.mem_singleton] at hx
    subst hx
    rfl
  · intro x hx
    simp only [List.nil_append, List.mem_singleton] at hx
    subst hx
    simp [hf, hu]

theorem timerInv_tstep {s : AppState} (h : timerInv s) (e : TEvent) :
    timerInv (tstep s e) := by
  obtain ⟨hlen, hid, hf, hu, hdel⟩ := h
  cases e with
  | focusIn => exact timerInv_schedule (s := { s with is_focused := true }) hid hf hu
  | focusOut => exact timerInv_schedule (s := { s with is_focused := false }) hid hf hu
  | dirOpened => exact ⟨hlen, hid, hf, hu, hdel⟩
  | fire =>
    cases hrid : s.refresh_timer_id with
    | none =>
      simp only [tstep, hrid]
      exact ⟨hlen, hid, hf, hu, hdel⟩
    | some id =>
      simp only [tstep, hrid]
      by_cases hp : s.timers.pending.any (fun x => x.1 == id)
      · rw [if_pos hp]
        refine timerInv_schedule ?_ hf hu
        intro x hx
        simp only [afterCancel, List.mem_filter] at hx
        exact hrid.symm.trans (hid x hx.1)
      · rw [if_neg hp]
        exact ⟨hlen, hid, hf, hu, hdel⟩

theorem timerInv_initApp : timerInv initApp :=
  timerInv_schedule (s := initialAppState) (by intro x hx; simp [initialAppState] at hx)
    rfl rfl

theorem timerInv_runEvents (evs : List TEvent) :
    timerInv (runEvents initApp evs) := by
  suffices h : ∀ s, timerInv s → timerInv (runEvents s evs) from
    h initApp timerInv_initApp
  induction evs with
  | nil => exact fun s hs => hs
  | cons e rest ih =>
    intro s hs
    exact ih (tstep s e) (timerInv_tstep hs e)

theorem scanEntries_length (p : String) (es : List DirEntry) (si fi : Nat) :
    (scanEntries p es si fi).1.length + (scanEntries p es si fi).2.length =
      (es.filter (fun e => e.is_dir || e.is_file)).length := by
  induction es generalizing si fi with
  | nil => rfl
  | cons e rest ih =>
    by_cases hd : e.is_dir
    · have := ih (si + 1) fi
      simp only [scanEntries, hd, if_true, List.filter_cons]
      simp only [hd, Bool.true_or, if_true, List.length_cons, List.length_map]
      simp at this ⊢
      omega
    · by_cases hf : e.is_file
      · have := ih si (fi + 1)
        simp only [scanEntries, hd, hf, if_false, if_true, List.filter_cons]
        simp [hd, hf] at this ⊢
        omega
      · have := ih si fi
        simp only [scanEntries, hd, hf, List.filter_cons]
        simp [hd, hf] at this ⊢
        omega

/-- C1: for every path, `scan_dir` returns a snapshot and never raises (it
is a total function of the filesystem oracle); whenever the top-level stat
or directory iteration fails, the snapshot equals the error-shape `Dir`:
empty subdirectory list, empty file list, and error-variant metadata whose
message is non-empty. -/
theorem C1_scan_error_shape (fs : FS) (p : String) (e : OSErr)
    (h : scanErr fs p = some e) :
    scan_dir fs p = errorDir p e ∧
    (scan_dir fs p).subdirs = [] ∧
    (scan_dir fs p).files = [] ∧
    (scan_dir fs p).metadata = [("error", MetaVal.strV (OSErr.toString e))] ∧
    OSErr.toString e ≠ "" := by
  unfold scanErr at h
  unfold scan_dir
  cases hs : fs.stat p with
  | error e0 =>
    rw [hs] at h
    simp only [Option.some.injEq] at h
    subst h
    exact ⟨rfl, rfl, rfl, rfl, OSErr_toString_ne_empty e0⟩
  | ok st =>
    rw [hs] at h
    cases hsc : fs.scandir p with
    | error e0 =>
      rw [hsc] at h
      simp only [Option.some.injEq] at h
      subst h
      exact ⟨rfl, rfl, rfl, rfl, OSErr_toString_ne_empty e0⟩
    | ok entries =>
      rw [hsc] at h
      simp at h

theorem C1_witness :
    scanErr fsDemo "/nope" = some enoent ∧
    scan_dir fsDemo "/nope" = errorDir "/nope" enoent := by
  have h : scanErr fsDemo "/nope" = some enoent := rfl
  exact ⟨h, (C1_scan_error_shape fsDemo "/nope" enoent h).1⟩

/-- C2: on a cache hit, `async_get_dir` invokes the callback immediately
with the cached snapshot (and exactly once for this call) and spawns a
`scan_and_update_cache` background thread, touching neither the cache nor
the UI queue itself; running that thread replaces the cache entry for the
path with the fresh scan and invokes no callback (delivered log and UI
queue unchanged). -/
theorem C2_cache_hit (fs : FS) (σ : SchedState) (p : String) (cb : Nat)
    (d : Dir) (h : cacheLookup σ.cache p = some d) :
    (async_get_dir σ p cb).delivered = σ.delivered ++ [(cb, d)] ∧
    (async_get_dir σ p cb).uiQueue = σ.uiQueue ∧
    (async_get_dir σ p cb).cache = σ.cache ∧
    (async_get_dir σ p cb).tasks =
      σ.tasks ++ [ScanTask.scanAndUpdateCache p] ∧
    deliveriesFor cb (async_get_dir σ p cb) = deliveriesFor cb σ + 1 ∧
    cacheLookup (runScanTask fs (async_get_dir σ p cb)
        (ScanTask.scanAndUpdateCache p)).cache p = some (scan_dir fs p) ∧
    (runScanTask fs (async_get_dir σ p cb)
        (ScanTask.scanAndUpdateCache p)).delivered =
      (async_get_dir σ p cb).delivered ∧
    (runScanTask fs (async_get_dir σ p cb)
        (ScanTask.scanAndUpdateCache p)).uiQueue =
      (async_get_dir σ p cb).uiQueue := by
  simp only [async_get_dir, h]
  refine ⟨trivial, trivial, trivial, trivial, ?_, ?_, rfl, rfl⟩
  · unfold deliveriesFor
    simp [List.filter_append]
    omega
  · exact cacheLookup_cachePut _ p _

theorem C2_witness :
    cacheLookup [("/a", dirA)] "/a" = some dirA ∧
    (async_get_dir ⟨[("/a", dirA)], [], [], []⟩ "/a" 7).delivered =
      [(7, dirA)] ∧
    (runScanTask fsDemo (async_get_dir ⟨[("/a", dirA)], [], [], []⟩ "/a" 7)
        (ScanTask.scanAndUpdateCache "/a")).delivered = [(7, dirA)] := by
  have h : cacheLookup [("/a", dirA)] "/a" = some dirA := rfl
  have h2 := C2_cache_hit fsDemo ⟨[("/a", dirA)], [], [], []⟩ "/a" 7 dirA h
  refine ⟨h, ?_, ?_⟩
  · have := h2.1
    simpa using this
  · rw [h2.2.2.2.2.2.2.1]
    have := h2.1
    simpa using this

/-- C3: on a cache miss, `async_get_dir` performs no immediate delivery and
spawns a `scan_and_callback` background thread; when that thread finishes,
the scan result is stored in the cache while the delivery is still only
queued (stored before delivered), the queued delivery carries exactly the
stored snapshot, and after the UI thread drains its queue the callback has
been invoked exactly once more for this call, with that snapshot. -/
theorem C3_cache_miss (fs : FS) (σ : SchedState) (p : String) (cb : Nat)
    (h : cacheLookup σ.cache p = none) :
    (async_get_dir σ p cb).delivered = σ.delivered ∧
    (async_get_dir σ p cb).uiQueue = σ.uiQueue ∧
    (async_get_dir σ p cb).cache = σ.cache ∧
    (async_get_dir σ p cb).tasks = σ.tasks ++ [ScanTask.scanAndCallback p cb] ∧
    cacheLookup (runScanTask fs (async_get_dir σ p cb)
        (ScanTask.scanAndCallback p cb)).cache p = some (scan_dir fs p) ∧
    (runScanTask fs (async_get_dir σ p cb)
        (ScanTask.scanAndCallback p cb)).delivered = σ.delivered ∧
    (runScanTask fs (async_get_dir σ p cb)
        (ScanTask.scanAndCallback p cb)).uiQueue =
      σ.uiQueue ++ [(cb, scan_dir fs p)] ∧
    (drainUI (runScanTask fs (async_get_dir σ p cb)
        (ScanTask.scanAndCallback p cb))).delivered =
      σ.delivered ++ (σ.uiQueue ++ [(cb, scan_dir fs p)]) ∧
    cacheLookup (drainUI (runScanTask fs (async_get_dir σ p cb)
        (ScanTask.scanAndCallback p cb))).cache p = some (scan_dir fs p) ∧
    deliveriesFor cb (drainUI (runScanTask fs (async_get_dir σ p cb)
        (ScanTask.scanAndCallback p cb))) = deliveriesFor cb σ + 1 := by
  simp only [async_get_dir, h, runScanTask, drainUI]
  refine ⟨trivial, trivial, trivial, trivial, cacheLookup_cachePut _ p _,
    trivial, trivial, trivial, cacheLookup_cachePut _ p _, ?_⟩
  unfold deliveriesFor
  simp [List.filter_append]
  omega

theorem C3_witness :
    cacheLookup (([] : List (String × Dir))) "/a" = none ∧
    (drainUI (runScanTask fsDemo (async_get_dir ⟨[], [], [], []⟩ "/a" 3)
        (ScanTask.scanAndCallback "/a" 3))).delivered =
      [(3, scan_dir fsDemo "/a")] ∧
    cacheLookup (drainUI (runScanTask fsDemo
        (async_get_dir ⟨[], [], [], []⟩ "/a" 3)
        (ScanTask.scanAndCallback "/a" 3))).cache "/a" =
      some (scan_dir fsDemo "/a") := by
  have h : cacheLookup (([] : List (String × Dir))) "/a" = none := rfl
  have h3 := C3_cache_miss fsDemo ⟨[], [], [], []⟩ "/a" 3 h
  refine ⟨h, ?_, h3.2.2.2.2.2.2.2.2.1⟩
  have := h3.2.2.2.2.2.2.2.1
  simpa using this

/-- C4: for every sequence of refresh events (directory opened/changed,
timer fire, focus gained, focus lost) from application startup, at most one
pending refresh timer handle exists at any instant; structurally,
`schedule_live_refresh` is the only arming site and always cancels the
tracked handle before arming. -/
theorem C4_single_pending_timer (evs : List TEvent) :
    (runEvents initApp evs).timers.pending.length ≤ 1 :=
  (timerInv_runEvents evs).1

/-- C5 as stated is false: the code's classification token for text files
is the string `text/plain`, not `text` — `get_mimetype "c.txt"` is not one
of `text` / `image` / `unknown`. -/
theorem C5_counterexample :
    get_mimetype "c.txt" = "text/plain" ∧
    get_mimetype "c.txt" ∉ (["text", "image", "unknown"] : List String) := by
  constructor
  · rfl
  · decide

/-- C5 (amended): the classification is a two-tier lookup of the
case-folded extension — text set, else image set, else unknown — and the
result is always one of `text/plain`, `image`, `unknown`; `c.txt`
classifies as `text/plain`, the code's token for the text tier. -/
theorem C5_two_tier :
    (∀ name : String, get_mimetype name = "text/plain" ∨
      get_mimetype name = "image" ∨ get_mimetype name = "unknown") ∧
    (∀ name : String, extLower name ∈ text_extensions →
      get_mimetype name = "text/plain") ∧
    (∀ name : String, extLower name ∉ text_extensions →
      extLower name ∈ image_extensions → get_mimetype name = "image") ∧
    (∀ name : String, extLower name ∉ text_extensions →
      extLower name ∉ image_extensions → get_mimetype name = "unknown") ∧
    get_mimetype "c.txt" = "text/plain" := by
  refine ⟨fun name => ?_, fun name h1 => ?_, fun name h1 h2 => ?_,
    fun name h1 h2 => ?_, rfl⟩
  · simp only [get_mimetype]
    split
    · exact Or.inl rfl
    · split
      · exact Or.inr (Or.inl rfl)
      · exact Or.inr (Or.inr rfl)
  · simp [get_mimetype, h1]
  · simp [get_mimetype, h1, h2]
  · simp [get_mimetype, h1, h2]

theorem C5_witness :
    extLower "c.txt" ∈ text_extensions ∧
    get_mimetype "c.txt" = "text/plain" := by
  have h : extLower "c.txt" ∈ text_extensions := by decide
  exact ⟨h, C5_two_tier.2.1 "c.txt" h⟩

/-- C6: on a readable directory, every child entry is recorded as exactly
one of subdirectory name / file record / skipped: the subdirectory names
are exactly the `is_dir` entries in order, the file records are exactly the
non-dir `is_file` entries in order, and the two lists together account for
exactly the entries that are a directory or a regular file — entries that
are neither are skipped. -/
theorem C6_entry_partition (fs : FS) (p : String) (st : Stat)
    (entries : List DirEntry) (h1 : fs.stat p = Except.ok st)
    (h2 : fs.scandir p = Except.ok entries) :
    (scan_dir fs p).subdirs.map Prod.snd =
      (entries.filter (fun e => e.is_dir)).map DirEntry.name ∧
    (scan_dir fs p).files.map Prod.snd =
      (entries.filter (fun e => !e.is_dir && e.is_file)).map (mkFile p) ∧
    (scan_dir fs p).subdirs.length + (scan_dir fs p).files.length =
      (entries.filter (fun e => e.is_dir || e.is_file)).length := by
  unfold scan_dir
  rw [h1, h2]
  exact ⟨scanEntries_subdir_names p entries 0 0,
    scanEntries_file_vals p entries 0 0, scanEntries_length p entries 0 0⟩

theorem C6_witness :
    fsDemo.stat "/a" = Except.ok statA ∧
    fsDemo.scandir "/a" = Except.ok [entryB, entryC, entryS] ∧
    (scan_dir fsDemo "/a").subdirs.map Prod.snd = ["b"] ∧
    (scan_dir fsDemo "/a").subdirs.length +
      (scan_dir fsDemo "/a").files.length = 2 := by
  have h1 : fsDemo.stat "/a" = Except.ok statA := rfl
  have h2 : fsDemo.scandir "/a" = Except.ok [entryB, entryC, entryS] := rfl
  have h3 := C6_entry_partition fsDemo "/a" statA [entryB, entryC, entryS] h1 h2
  refine ⟨h1, h2, ?_, ?_⟩
  · rw [h3.1]
    decide
  · rw [h3.2.2]
    decide

/-- C7: the metadata of every snapshot produced by `scan_dir` is exactly
one of the two variants: either precisely the four success keys with no
`error` key, or precisely the single `error` key with none of the success
keys — never fields of both. -/
theorem C7_metadata_exclusive (fs : FS) (p : String) :
    ((scan_dir fs p).metadata.map Prod.fst =
        ["count_subdirs", "count_files", "created", "modified"] ∧
      "error" ∉ (scan_dir fs p).metadata.map Prod.fst) ∨
    ((scan_dir fs p).metadata.map Prod.fst = ["error"] ∧
      "count_subdirs" ∉ (scan_dir fs p).metadata.map Prod.fst ∧
      "count_files" ∉ (scan_dir fs p).metadata.map Prod.fst ∧
      "created" ∉ (scan_dir fs p).metadata.map Prod.fst ∧
      "modified" ∉ (scan_dir fs p).metadata.map Prod.fst) := by
  unfold scan_dir
  cases fs.stat p with
  | error e =>
    right
    dsimp only [errorDir]
    refine ⟨rfl, ?_, ?_, ?_, ?_⟩ <;> simp
  | ok st =>
    cases fs.scandir p with
    | error e =>
      right
      dsimp only [errorDir]
      refine ⟨rfl, ?_, ?_, ?_, ?_⟩ <;> simp
    | ok entries =>
      left
      dsimp only
      refine ⟨rfl, ?_⟩
      simp

/-- C8: in every state reachable from startup by refresh events, every
pending refresh timer was armed with delay exactly 10000 ms when the focus
flag is true and 90000 ms when it is false.  Arming happens only inside
`schedule_live_refresh`, which reads the flag current at that moment, and
every flag change immediately re-arms, so this reachable-state invariant is
exactly the per-arming policy (startup included, via `evs = []`). -/
theorem C8_refresh_delay_policy (evs : List TEvent) (x : Nat × Nat)
    (hx : x ∈ (runEvents initApp evs).timers.pending) :
    x.2 = if (runEvents initApp evs).is_focused then 10000 else 90000 :=
  (timerInv_runEvents evs).2.2.2.2 x hx

theorem C8_witness :
    ((0, 10000) : Nat × Nat) ∈ (runEvents initApp []).timers.pending ∧
    ((0, 10000) : Nat × Nat).2 =
      if (runEvents initApp []).is_focused then 10000 else 90000 := by
  have hx : ((0, 10000) : Nat × Nat) ∈ (runEvents initApp []).timers.pending := by
    decide
  exact ⟨hx, C8_refresh_delay_policy [] (0, 10000) hx⟩

/-- C9: on a successful scan the keys of the subdirectory mapping and of
the file mapping are the consecutive integers 0..n-1 in insertion order,
and the values are in exactly the order produced by the underlying
directory iteration (no sorting). -/
theorem C9_insertion_order_numbering (fs : FS) (p : String) (st : Stat)
    (entries : List DirEntry) (h1 : fs.stat p = Except.ok st)
    (h2 : fs.scandir p = Except.ok entries) :
    (scan_dir fs p).subdirs.map Prod.fst =
      List.range (scan_dir fs p).subdirs.length ∧
    (scan_dir fs p).files.map Prod.fst =
      List.range (scan_dir fs p).files.length ∧
    (scan_dir fs p).subdirs.map Prod.snd =
      (entries.filter (fun e => e.is_dir)).map DirEntry.name ∧
    (scan_dir fs p).files.map Prod.snd =
      (entries.filter (fun e => !e.is_dir && e.is_file)).map (mkFile p) := by
  unfold scan_dir
  rw [h1, h2]
  dsimp only
  have hslen : (scanEntries p entries 0 0).1.length =
      (entries.filter (fun e => e.is_dir)).length := by
    have := congrArg List.length (scanEntries_subdir_keys p entries 0 0)
    simpa using this
  have hflen : (scanEntries p entries 0 0).2.length =
      (entries.filter (fun e => !e.is_dir && e.is_file)).length := by
    have := congrArg List.length (scanEntries_file_keys p entries 0 0)
    simpa using this
  refine ⟨?_, ?_, scanEntries_subdir_names p entries 0 0,
    scanEntries_file_vals p entries 0 0⟩
  · rw [scanEntries_subdir_keys, hslen, List.range_eq_range']
  · rw [scanEntries_file_keys, hflen, List.range_eq_range']

theorem C9_witness :
    fsDemo.stat "/a" = Except.ok statA ∧
    fsDemo.scandir "/a" = Except.ok [entryB, entryC, entryS] ∧
    (scan_dir fsDemo "/a").subdirs.map Prod.fst =
      List.range (scan_dir fsDemo "/a").subdirs.length ∧
    (scan_dir fsDemo "/a").files.map Prod.fst =
      List.range (scan_dir fsDemo "/a").files.length := by
  have h1 : fsDemo.stat "/a" = Except.ok statA := rfl
  have h2 : fsDemo.scandir "/a" = Except.ok [entryB, entryC, entryS] := rfl
  have h3 := C9_insertion_order_numbering fsDemo "/a" statA
    [entryB, entryC, entryS] h1 h2
  exact ⟨h1, h2, h3.1, h3.2.1⟩

/-- C10: the classification depends only on the case-folded extension:
case-equivalent names (pointwise-equal after lower-casing, e.g. `A.TXT` and
`A.txt`) classify identically, because `get_mimetype` lowercases the
extension before the lookup. -/
theorem C10_case_insensitive (n₁ n₂ : String)
    (h : List.Forall₂ caseEqv n₁.data n₂.data) :
    get_mimetype n₁ = get_mimetype n₂ := by
  unfold get_mimetype
  rw [extLower_caseEqv h]

theorem C10_witness :
    List.Forall₂ caseEqv "A.TXT".data "A.txt".data ∧
    get_mimetype "A.TXT" = get_mimetype "A.txt" ∧
    get_mimetype "A.TXT" = "text/plain" := by
  have hf : List.Forall₂ caseEqv "A.TXT".data "A.txt".data := by
    show List.Forall₂ caseEqv ['A', '.', 'T', 'X', 'T'] ['A', '.', 't', 'x', 't']
    refine .cons ?_ (.cons ?_ (.cons ?_ (.cons ?_ (.cons ?_ .nil)))) <;>
      · show Char.toLower _ = Char.toLower _
        decide
  exact ⟨hf, C10_case_insensitive "A.TXT" "A.txt" hf, by decide⟩
